import Mathlib

/-!
Shallow embedding of the Gelap shielded-wallet core (wallet.ts,
keyDerivation.ts, contractService.ts) and proofs of the specified
properties about note selection, transaction error handling, chain sync,
key derivation and key export.

Conventions: TS `bigint` is embedded as `Int` (or `Nat` where the source
value is a byte/hash quantity that is never negative), `Hex`/`Address`
strings as `String`, byte arrays (`Uint8Array`) as `List Nat` with entries
below 256.  External collaborator calls (contract service, prover) are
embedded as explicit response values passed to the state-transition
functions; a call that throws is an `Except.error` response.
-/

namespace Gelap

/-! ### Byte and hex utilities (viem `bytesToHex` / `hexToBytes`,
keyDerivation.ts `bytesToBigInt` / `bigIntToBytes`) -/

/-- Lowercase hex digit for a value in `[0, 15]` (viem encoding). -/
def hexDigitChar (n : Nat) : Char :=
  if n < 10 then Char.ofNat (48 + n) else Char.ofNat (87 + n)

/-- Two lowercase hex characters of one byte. -/
def byteToHexChars (b : Nat) : List Char :=
  [hexDigitChar (b / 16 % 16), hexDigitChar (b % 16)]

/-- viem `bytesToHex`: 0x-prefixed lowercase hex string of a byte array. -/
def bytesToHex (bs : List Nat) : String :=
  String.mk ('0' :: 'x' :: (bs.map byteToHexChars).flatten)

/-- Value of one hex character by char code, as in viem's
`charCodeToBase16` (0 for a non-hex character). -/
def hexCharVal (c : Char) : Nat :=
  if 48 ≤ c.toNat ∧ c.toNat ≤ 57 then c.toNat - 48
  else if 97 ≤ c.toNat ∧ c.toNat ≤ 102 then c.toNat - 87
  else if 65 ≤ c.toNat ∧ c.toNat ≤ 70 then c.toNat - 55
  else 0

/-- Parse consecutive pairs of hex characters into bytes. -/
def hexPairsToBytes : List Char → List Nat
  | a :: b :: rest => (hexCharVal a * 16 + hexCharVal b) :: hexPairsToBytes rest
  | _ => []

/-- viem `hexToBytes`: drop the `0x` prefix and parse hex pairs. -/
def hexToBytes (s : String) : List Nat :=
  hexPairsToBytes (s.toList.drop 2)

/-- keyDerivation.ts `bytesToBigInt`: big-endian fold with
`result = (result << 8n) | BigInt(bytes[i])`. -/
def bytesToBigInt (bs : List Nat) : Nat :=
  bs.foldl (fun r b => r <<< 8 ||| b) 0

/-- keyDerivation.ts `bigIntToBytes`, generalised to `k` bytes: the loop
fills `bytes[i] = Number(v & 0xffn)` from index 31 down to 0, shifting `v`
right by 8 each step, i.e. the big-endian byte expansion. -/
def bigIntToBytesAux : Nat → Nat → List Nat
  | 0, _ => []
  | k + 1, v => bigIntToBytesAux k (v >>> 8) ++ [v &&& 255]

/-- keyDerivation.ts `bigIntToBytes`: 32-byte big-endian encoding. -/
def bigIntToBytes (v : Nat) : List Nat :=
  bigIntToBytesAux 32 v

/-! #### Lemmas about the byte utilities -/

theorem hexCharVal_hexDigitChar : ∀ x : Fin 16, hexCharVal (hexDigitChar x.val) = x.val := by
  decide

theorem hexCharVal_hexDigitChar_of_lt {x : Nat} (h : x < 16) :
    hexCharVal (hexDigitChar x) = x :=
  hexCharVal_hexDigitChar ⟨x, h⟩

theorem hexPairsToBytes_byteChars {b : Nat} (hb : b < 256) (cs : List Char) :
    hexPairsToBytes (byteToHexChars b ++ cs) = b :: hexPairsToBytes cs := by
  simp only [byteToHexChars, List.cons_append, List.nil_append, hexPairsToBytes]
  have h1 : b / 16 % 16 < 16 := Nat.mod_lt _ (by omega)
  have h2 : b % 16 < 16 := Nat.mod_lt _ (by omega)
  rw [hexCharVal_hexDigitChar_of_lt h1, hexCharVal_hexDigitChar_of_lt h2]
  have h3 : b / 16 % 16 = b / 16 := Nat.mod_eq_of_lt (by omega)
  rw [h3]
  congr 1
  omega

theorem hexPairsToBytes_join {bs : List Nat} (h : ∀ b ∈ bs, b < 256) :
    hexPairsToBytes ((bs.map byteToHexChars).flatten) = bs := by
  induction bs with
  | nil => rfl
  | cons b rest ih =>
    simp only [List.map_cons, List.flatten_cons]
    rw [hexPairsToBytes_byteChars (h b (by simp))]
    rw [ih (fun x hx => h x (by simp [hx]))]

/-- Round trip: parsing the hex encoding of a byte list recovers it. -/
theorem hexToBytes_bytesToHex {bs : List Nat} (h : ∀ b ∈ bs, b < 256) :
    hexToBytes (bytesToHex bs) = bs := by
  have hl : (bytesToHex bs).toList = '0' :: 'x' :: (bs.map byteToHexChars).flatten := rfl
  rw [hexToBytes, hl]
  simp only [List.drop_succ_cons, List.drop_zero]
  exact hexPairsToBytes_join h

theorem hexCharVal_le (c : Char) : hexCharVal c ≤ 15 := by
  simp only [hexCharVal]
  split
  · omega
  · split
    · omega
    · split
      · omega
      · omega

theorem hexPairsToBytes_lt : ∀ cs : List Char, ∀ b ∈ hexPairsToBytes cs, b < 256
  | [] => by intro b hb; simp [hexPairsToBytes] at hb
  | [c] => by intro b hb; simp [hexPairsToBytes] at hb
  | a :: c :: rest => by
    intro x hx
    simp only [hexPairsToBytes, List.mem_cons] at hx
    rcases hx with hx | hx
    · have ha := hexCharVal_le a
      have hc := hexCharVal_le c
      omega
    · exact hexPairsToBytes_lt rest x hx

/-- Every byte produced by `hexToBytes` is below 256. -/
theorem hexToBytes_lt (s : String) : ∀ b ∈ hexToBytes s, b < 256 :=
  hexPairsToBytes_lt _

theorem bytesToBigInt_append_byte (xs : List Nat) (b : Nat) :
    bytesToBigInt (xs ++ [b]) = bytesToBigInt xs <<< 8 ||| b := by
  simp [bytesToBigInt, List.foldl_append]

theorem bytesToBigInt_bigIntToBytesAux : ∀ (k v : Nat),
    bytesToBigInt (bigIntToBytesAux k v) = v % 2 ^ (8 * k)
  | 0, v => by simp [bigIntToBytesAux, bytesToBigInt, Nat.mod_one]
  | k + 1, v => by
    rw [bigIntToBytesAux, bytesToBigInt_append_byte,
      bytesToBigInt_bigIntToBytesAux k (v >>> 8)]
    have h255 : (255 : Nat) = 2 ^ 8 - 1 := by norm_num
    apply Nat.eq_of_testBit_eq
    intro j
    rw [Nat.testBit_or, Nat.testBit_shiftLeft, h255,
      Nat.and_pow_two_sub_one_eq_mod, Nat.testBit_mod_two_pow,
      Nat.testBit_mod_two_pow, Nat.testBit_mod_two_pow, Nat.testBit_shiftRight]
    by_cases hj : j < 8
    · have hge : ¬ (j ≥ 8) := by omega
      have hlt : j < 8 * (k + 1) := by omega
      simp [hge, hj, hlt]
    · have hge : j ≥ 8 := by omega
      have hge' : (decide (j ≥ 8)) = true := by simp [hge]
      have hnj' : (decide (j < 8)) = false := by simp [hj]
      simp only [hge', hnj', Bool.true_and, Bool.false_and, Bool.or_false]
      have harith : 8 + (j - 8) = j := by omega
      rw [harith]
      by_cases hk : j - 8 < 8 * k
      · have h1 : j < 8 * (k + 1) := by omega
        simp [hk, h1]
      · have h1 : ¬ (j < 8 * (k + 1)) := by omega
        simp [hk, h1]

/-- Round trip: decoding the 32-byte big-endian encoding of a value below
`2 ^ 256` recovers the value. -/
theorem bytesToBigInt_bigIntToBytes {v : Nat} (h : v < 2 ^ 256) :
    bytesToBigInt (bigIntToBytes v) = v := by
  rw [bigIntToBytes, bytesToBigInt_bigIntToBytesAux]
  exact Nat.mod_eq_of_lt (by norm_num at h ⊢; omega)

theorem bigIntToBytesAux_lt : ∀ (k v : Nat), ∀ b ∈ bigIntToBytesAux k v, b < 256
  | 0, v => by intro b hb; simp [bigIntToBytesAux] at hb
  | k + 1, v => by
    intro b hb
    simp only [bigIntToBytesAux, List.mem_append, List.mem_singleton] at hb
    rcases hb with hb | hb
    · exact bigIntToBytesAux_lt k (v >>> 8) b hb
    · subst hb
      have h255 : (255 : Nat) = 2 ^ 8 - 1 := by norm_num
      rw [h255, Nat.and_pow_two_sub_one_eq_mod]
      have := Nat.mod_lt v (y := 2 ^ 8) (by norm_num)
      omega

/-! ### KeyDerivation (keyDerivation.ts) -/

/-- The two domain-separation purposes of `deriveKeyPairFromSignature`. -/
inductive Purpose
  | view
  | spend
deriving DecidableEq

/-- UTF-8 bytes of the purpose label, as produced by
`new TextEncoder().encode(purpose)`. -/
def purposeBytes : Purpose → List Nat
  | Purpose.view => [118, 105, 101, 119]
  | Purpose.spend => [115, 112, 101, 110, 100]

/-- The secp256k1 group order constant `n` from keyDerivation.ts. -/
def nOrder : Nat :=
  0xfffffffffffffffffffffffffffffffebaaedce6af48a03bbfd25e8cd0364141

/-- Failure of key derivation: the reduced scalar is zero. -/
inductive KdError
  | zeroScalar
deriving DecidableEq

/-- A derived key pair.  The public-key type is a parameter `P`: curve
points are supplied by the trusted `@noble/curves` library, which is
out of scope per the spec and is modelled by the abstract
scalar-multiplication map passed to the derivation function. -/
structure KeyPairM (P : Type) where
  privateKey : List Nat
  publicKey : P
deriving DecidableEq

/-- keyDerivation.ts `deriveKeyPairFromSignature`.  `keccak` is the
byte-level keccak256 primitive (trusted library); viem's hex-level
`keccak256` is `bytesToHex ∘ keccak ∘ hexToBytes`, spelled out below as in
the source, which converts to hex between the two hash applications.
`mulG` models `secp256k1.getPublicKey`, which maps a 32-byte private key
to the curve point (private key as scalar) · G. -/
def deriveKeyPairFromSignature {P : Type} (keccak : List Nat → List Nat)
    (mulG : Nat → P) (signature : String) (purpose : Purpose) :
    Except KdError (KeyPairM P) :=
  let keccak256Hex : String → String := fun h => bytesToHex (keccak (hexToBytes h))
  let sigBytes := hexToBytes signature
  let combined := sigBytes ++ purposeBytes purpose
  let hash1 := keccak256Hex (bytesToHex combined)
  let hash2 := keccak256Hex hash1
  let seedBytes := hexToBytes hash2
  let privateKeyScalar := bytesToBigInt seedBytes % nOrder
  if privateKeyScalar = 0 then Except.error KdError.zeroScalar
  else
    let privateKey := bigIntToBytes privateKeyScalar
    Except.ok { privateKey := privateKey, publicKey := mulG (bytesToBigInt privateKey) }

/-- types.ts `WalletKeys`: address plus view/spend private and public
keys (byte arrays). -/
structure WalletKeys where
  address : String
  viewPrivateKey : List Nat
  viewPublicKey : List Nat
  spendPrivateKey : List Nat
  spendPublicKey : List Nat
deriving DecidableEq

/-- The record returned by keyDerivation.ts `exportPublicKeys`. -/
structure PublicKeysExport where
  address : String
  viewPublicKey : String
  spendPublicKey : String
deriving DecidableEq

/-- keyDerivation.ts `exportPublicKeys`. -/
def exportPublicKeys (keys : WalletKeys) : PublicKeysExport :=
  { address := keys.address
    viewPublicKey := bytesToHex keys.viewPublicKey
    spendPublicKey := bytesToHex keys.spendPublicKey }

theorem purposeBytes_lt (p : Purpose) : ∀ b ∈ purposeBytes p, b < 256 := by
  cases p <;> intro b hb <;> simp [purposeBytes] at hb <;> omega

theorem nOrder_pos : 0 < nOrder := by norm_num [nOrder]

theorem nOrder_lt_two_pow : nOrder < 2 ^ 256 := by norm_num [nOrder]

/-- C8: for every signature and purpose label, the derived private scalar
equals keccak256(keccak256(signature ∥ purpose-label)) reduced modulo the
secp256k1 group order, derivation fails exactly when that reduced value is
zero, and the returned public key is the scalar times the generator G
(`mulG` models the trusted library's `getPublicKey`).  The hypotheses say
that the keccak primitive returns byte values, i.e. entries below 256. -/
theorem c8_key_derivation {P : Type} (keccak : List Nat → List Nat) (mulG : Nat → P)
    (sig : String) (p : Purpose)
    (h1 : ∀ b ∈ keccak (hexToBytes sig ++ purposeBytes p), b < 256)
    (h2 : ∀ b ∈ keccak (keccak (hexToBytes sig ++ purposeBytes p)), b < 256) :
    deriveKeyPairFromSignature keccak mulG sig p =
      if bytesToBigInt (keccak (keccak (hexToBytes sig ++ purposeBytes p))) % nOrder = 0
      then Except.error KdError.zeroScalar
      else Except.ok
        { privateKey :=
            bigIntToBytes
              (bytesToBigInt (keccak (keccak (hexToBytes sig ++ purposeBytes p))) % nOrder)
          publicKey :=
            mulG (bytesToBigInt (keccak (keccak (hexToBytes sig ++ purposeBytes p))) % nOrder) } := by
  have hcomb : ∀ b ∈ hexToBytes sig ++ purposeBytes p, b < 256 := by
    intro b hb
    rcases List.mem_append.mp hb with hb | hb
    · exact hexToBytes_lt sig b hb
    · exact purposeBytes_lt p b hb
  have e1 := hexToBytes_bytesToHex hcomb
  have e2 := hexToBytes_bytesToHex h1
  have e3 := hexToBytes_bytesToHex h2
  simp only [deriveKeyPairFromSignature, e1, e2, e3]
  split
  · rfl
  · have hs : bytesToBigInt (keccak (keccak (hexToBytes sig ++ purposeBytes p))) % nOrder
        < 2 ^ 256 :=
      lt_trans (Nat.mod_lt _ nOrder_pos) nOrder_lt_two_pow
    rw [bytesToBigInt_bigIntToBytes hs]

/-- Witness for C8 at a concrete keccak model, signature and purpose. -/
theorem c8_key_derivation_witness :
    deriveKeyPairFromSignature (fun _ => [1]) (fun k => k) "0x00" Purpose.view
      = Except.ok { privateKey := bigIntToBytes 1, publicKey := 1 } := by
  have h1 : ∀ b ∈ (fun (_ : List Nat) => [1]) (hexToBytes "0x00" ++ purposeBytes Purpose.view),
      b < 256 := by
    intro b hb
    simp at hb
    omega
  have h2 : ∀ b ∈ (fun (_ : List Nat) => [1])
      ((fun (_ : List Nat) => [1]) (hexToBytes "0x00" ++ purposeBytes Purpose.view)), b < 256 := by
    intro b hb
    simp at hb
    omega
  rw [c8_key_derivation (fun _ => [1]) (fun k => k) "0x00" Purpose.view h1 h2]
  have hb1 : bytesToBigInt [1] = 1 := by decide
  rw [hb1, Nat.mod_eq_of_lt (by norm_num [nOrder])]
  simp

/-- C9 (counterexample): `exportPublicKeys` is claimed to return no field
besides the two public keys, but two wallet keys with identical public and
private key material and different addresses export different records, so
the result also carries the `address` field. -/
theorem c9_export_counterexample :
    (WalletKeys.mk "0xaaaa" [] [1] [] [2]).viewPublicKey
        = (WalletKeys.mk "0xbbbb" [] [1] [] [2]).viewPublicKey
    ∧ (WalletKeys.mk "0xaaaa" [] [1] [] [2]).spendPublicKey
        = (WalletKeys.mk "0xbbbb" [] [1] [] [2]).spendPublicKey
    ∧ (WalletKeys.mk "0xaaaa" [] [1] [] [2]).viewPrivateKey
        = (WalletKeys.mk "0xbbbb" [] [1] [] [2]).viewPrivateKey
    ∧ (WalletKeys.mk "0xaaaa" [] [1] [] [2]).spendPrivateKey
        = (WalletKeys.mk "0xbbbb" [] [1] [] [2]).spendPrivateKey
    ∧ exportPublicKeys (WalletKeys.mk "0xaaaa" [] [1] [] [2])
        ≠ exportPublicKeys (WalletKeys.mk "0xbbbb" [] [1] [] [2]) := by
  refine ⟨rfl, rfl, rfl, rfl, ?_⟩
  intro h
  have := congrArg PublicKeysExport.address h
  simp [exportPublicKeys] at this

/-- C9 (amended): `exportPublicKeys` returns exactly the address and the
two hex-encoded public keys; it contains no private-key material — the
result depends only on the address and the two public keys. -/
theorem c9_export_amended (k : WalletKeys) :
    exportPublicKeys k
      = { address := k.address
          viewPublicKey := bytesToHex k.viewPublicKey
          spendPublicKey := bytesToHex k.spendPublicKey }
    ∧ ∀ k' : WalletKeys, k.address = k'.address → k.viewPublicKey = k'.viewPublicKey →
        k.spendPublicKey = k'.spendPublicKey → exportPublicKeys k = exportPublicKeys k' := by
  constructor
  · rfl
  · intro k' h1 h2 h3
    simp [exportPublicKeys, h1, h2, h3]

/-- Witness for C9 (amended): keys differing only in private material
export identically. -/
theorem c9_export_amended_witness :
    exportPublicKeys (WalletKeys.mk "0xa" [1] [2] [3] [4])
      = exportPublicKeys (WalletKeys.mk "0xa" [9] [2] [8] [4]) :=
  (c9_export_amended (WalletKeys.mk "0xa" [1] [2] [3] [4])).2
    (WalletKeys.mk "0xa" [9] [2] [8] [4]) rfl rfl rfl

/-! ### Note ledger data model (wallet.ts) -/

/-- wallet.ts `Note` (UTXO). -/
structure Note where
  commitment : String
  amount : Int
  blinding : String
  token : String
  leafIndex : Nat
  nullifier : String
  spent : Bool
  blockNumber : Int
deriving DecidableEq, Inhabited

/-- types.ts `StealthAddress` as used by wallet.ts (the source spells the
ephemeral key field `ephmeralPublicKey`). -/
structure StealthAddress where
  address : String
  ephmeralPublicKey : String
  viewTag : Nat
deriving DecidableEq

/-- One entry of `executeTransaction`'s `outputs` argument. -/
structure TxOutput where
  amount : Int
  recipient : StealthAddress
deriving DecidableEq

/-- wallet.ts `PrivacyWalletState`.  The Merkle tree is represented by its
ordered leaf sequence (spec §3: the tree state is a deterministic function
of the ordered leaves); `keys` is optional as in the source. -/
structure PrivacyWalletState where
  keys : Option WalletKeys
  notes : List Note
  merkleLeaves : List String
  lastSyncedBlock : Int

/-- contractService.ts `AccountUpdatedEvent` (the fields wallet.ts
consumes). -/
structure AccountUpdatedEvent where
  commitment : String
  blockNumber : Int
deriving DecidableEq

/-- Result of `waitForTransaction`. -/
structure TxResult where
  success : Bool
  blockNumber : Int
deriving DecidableEq

/-- contractService.ts `ProofResponse`. -/
structure ProofResponse where
  publicInputs : String
  proofBytes : String
  success : Bool
  error : Option String
deriving DecidableEq

/-! ### Spec-modelled Merkle-tree primitives

merkleTree.ts itself is not among the source files (only its callers
are), so the operations wallet.ts uses are modelled from the spec. -/

/-- Modelled from the spec: merkleTree.ts `findLeafIndex` is absent from
the sources; spec §4.4 specifies lookup of a commitment in the ordered
leaf sequence, returning its index or NotFound (`-1` at the call sites in
wallet.ts, which compare against `-1`). -/
def findLeafIndex (leaves : List String) (commitment : String) : Int :=
  match leaves.indexOf? commitment with
  | some i => (i : Int)
  | none => -1

/-- Modelled from the spec: merkleTree.ts `insertLeaf` is absent from the
sources; spec §4.4 specifies that the leaf is placed at `nextLeafIndex`
(the end of the ordered leaf sequence) and the index incremented.  Root
and path recomputation are functions of the leaf sequence and are not
observed by any claim. -/
def insertLeaf (leaves : List String) (commitment : String) : List String :=
  leaves ++ [commitment]

/-- Modelled from the spec: merkleTree.ts `computeNullifier` is absent
from the sources; spec §3 requires only a pure deterministic function of
`(spendPrivateKey, leafIndex, commitment)`, which this placeholder is.
No claim observes its value. -/
def computeNullifier (spendPrivateKey : String) (leafIndex : Nat)
    (commitment : String) : String :=
  spendPrivateKey ++ ":" ++ toString leafIndex ++ ":" ++ commitment

/-- A Merkle proof as consumed by the prover request. -/
structure MerkleProofData where
  leaf : String
  pathElements : List String
  pathIndices : List Nat
deriving DecidableEq

/-- Modelled from the spec: merkleTree.ts `generateProof` is absent from
the sources; spec §4.4 specifies a pure read of the tree producing the
leaf, sibling hashes and path bits.  The claims only depend on proof
generation being a pure read (no state mutation), so the sibling-hash
computation is abstracted. -/
def generateProof (leaves : List String) (leafIndex : Nat) : MerkleProofData :=
  { leaf := leaves.getD leafIndex "0x0"
    pathElements := []
    pathIndices := [] }

/-- Modelled from the spec: the tree root is a deterministic function of
the ordered leaf sequence (spec §3); its value is only forwarded to the
prover collaborator and is not observed by any claim. -/
def merkleRoot (leaves : List String) : String :=
  String.intercalate "," leaves

/-! ### Ledger queries (wallet.ts) -/

/-- wallet.ts `getNotesForToken`: unspent notes whose token matches
case-insensitively. -/
def getNotesForToken (notes : List Note) (token : String) : List Note :=
  notes.filter (fun n => !n.spent && n.token.toLower == token.toLower)

/-- Sum of the amounts of a list of notes, as the `reduce` with
accumulator `0n` used throughout wallet.ts. -/
def sumAmounts (notes : List Note) : Int :=
  notes.foldl (fun sum n => sum + n.amount) 0

/-- The wallet's unspent total for a token: sum of the amounts of the
unspent notes matching the token (case-insensitively, as the ledger's own
token filter matches). -/
def tokenBalance (notes : List Note) (token : String) : Int :=
  sumAmounts (getNotesForToken notes token)

/-- The descending-by-amount sort of `selectNotesForAmount`
(`.sort((a, b) => Number(b.amount - a.amount))`; JS `sort` is stable). -/
def sortByAmountDesc (notes : List Note) : List Note :=
  notes.mergeSort (fun a b => b.amount ≤ a.amount)

/-- The greedy accumulation loop of `selectNotesForAmount`: walk the
available notes, stopping as soon as the running total reaches the
target. -/
def greedyAccumulate (target : Int) : List Note → Int → List Note × Int
  | [], total => ([], total)
  | n :: rest, total =>
    if total ≥ target then ([], total)
    else
      let r := greedyAccumulate target rest (total + n.amount)
      (n :: r.1, r.2)

/-- wallet.ts `selectNotesForAmount`. -/
def selectNotesForAmount (notes : List Note) (token : String)
    (targetAmount : Int) : List Note × Int :=
  let availableNotes := sortByAmountDesc (getNotesForToken notes token)
  greedyAccumulate targetAmount availableNotes 0

/-! ### markNotesSpent (wallet.ts) -/

/-- One iteration of `markNotesSpent`: find the first note whose
nullifier matches case-insensitively and set its `spent` flag. -/
def markFirst : List Note → String → List Note
  | [], _ => []
  | n :: rest, nullifier =>
    if n.nullifier.toLower = nullifier.toLower then { n with spent := true } :: rest
    else n :: markFirst rest nullifier

/-- wallet.ts `markNotesSpent`: for each nullifier, mark the first
case-insensitively matching note spent. -/
def markNotesSpent (nullifiers : List String) (notes : List Note) : List Note :=
  nullifiers.foldl markFirst notes

/-! ### Transactions (wallet.ts)

Each operation takes the collaborator's responses for the calls it makes
as explicit values: `Except.error` models the collaborator call throwing.
The returned pair is (operation outcome, wallet state after the
operation); a thrown error leaves exactly the mutations performed so far,
as the source mutates `this.state` in place. -/

/-- The errors `executeDeposit` / `executeWithdraw` / `executeTransaction`
throw, one constructor per distinct `throw new Error(...)` site, plus
`thrown` for an exception propagated from a collaborator call. -/
inductive TxError
  | insufficientBalance
  | walletKeysNotFound
  | proofFailed (message : String)
  | depositFailed
  | withdrawFailed
  | transactionFailed
  | noKeys
  | thrown
deriving DecidableEq

/-- Collaborator responses consumed by `executeDeposit`: the deposit
submission (tx hash or throw) and `waitForTransaction`. -/
structure DepositCollab where
  depositTx : Except Unit String
  waitResult : Except Unit TxResult

/-- Collaborator responses consumed by `executeWithdraw`. -/
structure WithdrawCollab where
  withdrawTx : Except Unit String
  waitResult : Except Unit TxResult

/-- Collaborator responses consumed by `executeTransaction`: the prover's
proof response, the `transact` submission and `waitForTransaction`. -/
structure TransferCollab where
  proofResponse : ProofResponse
  transactTx : Except Unit String
  waitResult : Except Unit TxResult

/-- wallet.ts `createCommitment`'s result record (types.ts `Commitment`). -/
structure Commitment where
  commitment : String
  amount : Int
  blinding : String
deriving DecidableEq

/-- wallet.ts `executeDeposit`: submit, wait for confirmation, then
insert the commitment leaf, derive the nullifier from the spend key and
append the new unspent note.  The non-null assertion `this.state.keys!`
faults after the leaf insertion when keys are absent. -/
def executeDeposit (st : PrivacyWalletState) (token : String)
    (commitment : Commitment) (collab : DepositCollab) :
    Except TxError (String × Note) × PrivacyWalletState :=
  match collab.depositTx with
  | Except.error _ => (Except.error TxError.thrown, st)
  | Except.ok txHash =>
    match collab.waitResult with
    | Except.error _ => (Except.error TxError.thrown, st)
    | Except.ok result =>
      if result.success = false then (Except.error TxError.depositFailed, st)
      else
        let leafIndex := st.merkleLeaves.length
        let leaves' := insertLeaf st.merkleLeaves commitment.commitment
        match st.keys with
        | none => (Except.error TxError.noKeys, { st with merkleLeaves := leaves' })
        | some keys =>
          let nullifier :=
            computeNullifier (bytesToHex keys.spendPrivateKey) leafIndex
              commitment.commitment
          let note : Note :=
            { commitment := commitment.commitment
              amount := commitment.amount
              blinding := commitment.blinding
              token := token
              leafIndex := leafIndex
              nullifier := nullifier
              spent := false
              blockNumber := result.blockNumber }
          (Except.ok (txHash, note),
            { st with merkleLeaves := leaves', notes := st.notes ++ [note] })

/-- wallet.ts `executeWithdraw` (test mode): submit `testWithdraw`, wait
for confirmation, then mark the caller-supplied notes' nullifiers
spent. -/
def executeWithdraw (st : PrivacyWalletState) (notes : List Note)
    (collab : WithdrawCollab) : Except TxError String × PrivacyWalletState :=
  let nullifiers := notes.map (fun n => n.nullifier)
  match collab.withdrawTx with
  | Except.error _ => (Except.error TxError.thrown, st)
  | Except.ok txHash =>
    match collab.waitResult with
    | Except.error _ => (Except.error TxError.thrown, st)
    | Except.ok result =>
      if result.success = false then (Except.error TxError.withdrawFailed, st)
      else (Except.ok txHash, { st with notes := markNotesSpent nullifiers st.notes })

/-- The input-note records `executeTransaction` sends to the prover. -/
structure ProverInputNote where
  commitment : String
  amount : Int
  blinding : String
  leafIndex : Nat
  pathElements : List String
  pathIndices : List Nat
deriving DecidableEq

/-- The output-note records `executeTransaction` sends to the prover. -/
structure ProverOutputNote where
  amount : Int
  recipientPublicKey : String
deriving DecidableEq

/-- contractService.ts `TransactionProofRequest` (fields wallet.ts
fills). -/
structure TransactionProofRequest where
  inputNotes : List ProverInputNote
  outputNotes : List ProverOutputNote
  currentRoot : String
deriving DecidableEq

/-- Sum of requested output amounts (`outputs.reduce((sum, out) =>
sum + out.amount, 0n)`). -/
def sumOutputs (outputs : List TxOutput) : Int :=
  outputs.foldl (fun sum out => sum + out.amount) 0

/-- wallet.ts `executeTransaction`: select inputs, fail on insufficient
balance, add a self-addressed change output when change is positive
(`changeAddress` stands for the freshly generated stealth address),
request a proof, submit, wait for confirmation, and only then mark the
selected inputs' nullifiers spent. -/
def executeTransaction (st : PrivacyWalletState) (token : String)
    (outputs : List TxOutput) (changeAddress : StealthAddress)
    (collab : TransferCollab) : Except TxError String × PrivacyWalletState :=
  let totalOutput := sumOutputs outputs
  let sel := selectNotesForAmount st.notes token totalOutput
  let inputNotesArray := sel.1
  let totalInput := sel.2
  if totalInput < totalOutput then (Except.error TxError.insufficientBalance, st)
  else
    let change := totalInput - totalOutput
    let finalOutputsE : Except TxError (List TxOutput) :=
      if change > 0 then
        match st.keys with
        | none => Except.error TxError.walletKeysNotFound
        | some _ => Except.ok (outputs ++ [{ amount := change, recipient := changeAddress }])
      else Except.ok outputs
    match finalOutputsE with
    | Except.error e => (Except.error e, st)
    | Except.ok finalOutputs =>
      let inputNotes : List ProverInputNote := inputNotesArray.map (fun n =>
        { commitment := n.commitment
          amount := n.amount
          blinding := n.blinding
          leafIndex := n.leafIndex
          pathElements := (generateProof st.merkleLeaves n.leafIndex).pathElements
          pathIndices := (generateProof st.merkleLeaves n.leafIndex).pathIndices })
      let outputNotes : List ProverOutputNote := finalOutputs.map (fun out =>
        { amount := out.amount
          recipientPublicKey := out.recipient.ephmeralPublicKey })
      let _request : TransactionProofRequest :=
        { inputNotes := inputNotes
          outputNotes := outputNotes
          currentRoot := merkleRoot st.merkleLeaves }
      let proofResponse := collab.proofResponse
      if proofResponse.success = false then
        (Except.error (TxError.proofFailed
          (proofResponse.error.getD "Failed to generate transaction proof")), st)
      else
        match collab.transactTx with
        | Except.error _ => (Except.error TxError.thrown, st)
        | Except.ok txHash =>
          match collab.waitResult with
          | Except.error _ => (Except.error TxError.thrown, st)
          | Except.ok result =>
            if result.success = false then (Except.error TxError.transactionFailed, st)
            else
              let nullifiers := inputNotesArray.map (fun n => n.nullifier)
              (Except.ok txHash, { st with notes := markNotesSpent nullifiers st.notes })

/-- The state-level `markNotesSpent` operation (it mutates only the note
list). -/
def markNotesSpentOp (st : PrivacyWalletState) (nullifiers : List String) :
    PrivacyWalletState :=
  { st with notes := markNotesSpent nullifiers st.notes }

/-! ### Chain sync (wallet.ts `syncWithChain`) -/

/-- Collaborator responses consumed by `syncWithChain`: the
`getAccountUpdatedEvents` result and the `isNullifierUsed` predicate,
each possibly throwing. -/
structure SyncCollab where
  events : Except Unit (List AccountUpdatedEvent)
  nullifierUsed : String → Except Unit Bool

/-- The spent-note check loop of `syncWithChain`: walk the notes in
order, query `isNullifierUsed` for each unspent one and flip `spent`
when used.  A thrown query aborts the loop, leaving the current and
remaining notes untouched; the Bool records whether an error occurred. -/
def checkSpentLoop (query : String → Except Unit Bool) :
    List Note → List Note × Bool
  | [] => ([], false)
  | n :: rest =>
    if n.spent then
      let r := checkSpentLoop query rest
      (n :: r.1, r.2)
    else
      match query n.nullifier with
      | Except.error _ => (n :: rest, true)
      | Except.ok used =>
        let n' := if used then { n with spent := true } else n
        let r := checkSpentLoop query rest
        (n' :: r.1, r.2)

/-- The `try`-block body of `syncWithChain`: short-circuit an empty
never-synced wallet; fetch events; insert unseen commitments; advance the
watermark past the last event; flip spent flags.  Returns the state at
the point control leaves the block and whether an error was thrown
inside it (mutations made before the throw persist, as the source
mutates in place). -/
def syncBody (st : PrivacyWalletState) (collab : SyncCollab) :
    PrivacyWalletState × Bool :=
  if st.notes = [] ∧ st.lastSyncedBlock = 0 then (st, false)
  else
    match collab.events with
    | Except.error _ => (st, true)
    | Except.ok events =>
      let leaves' := events.foldl (fun leaves e =>
        if findLeafIndex leaves e.commitment = -1 then insertLeaf leaves e.commitment
        else leaves) st.merkleLeaves
      let lastSynced' :=
        match events.getLast? with
        | some e => e.blockNumber + 1
        | none => st.lastSyncedBlock
      let r := checkSpentLoop collab.nullifierUsed st.notes
      ({ st with
          merkleLeaves := leaves',
          lastSyncedBlock := lastSynced',
          notes := r.1 }, r.2)

/-- wallet.ts `syncWithChain`: the `catch` swallows any error thrown in
the body (it is only logged), so the function always returns the body's
resulting state. -/
def syncWithChain (st : PrivacyWalletState) (collab : SyncCollab) :
    PrivacyWalletState :=
  (syncBody st collab).1

/-! ### contractService.ts `getAccountUpdatedEvents` -/

/-- The adjusted `actualFromBlock` computed by `getAccountUpdatedEvents`
when `toBlock = 'latest'`: `rangeStart` is `currentBlock - 10000` when
the current block exceeds the 10,000-block RPC limit (else 0), and the
effective from-block is the larger of the caller's `fromBlock` and
`rangeStart`. -/
def actualFromBlock (currentBlock fromBlock : Int) : Int :=
  let rangeStart := if currentBlock > 10000 then currentBlock - 10000 else 0
  if fromBlock > rangeStart then fromBlock else rangeStart

/-- contractService.ts `getAccountUpdatedEvents` with `toBlock =
'latest'`: `eth_getLogs` over the chain's stored logs (modelled as the
list `chainLogs`) restricted to block numbers in
`[actualFromBlock, currentBlock]`. -/
def getAccountUpdatedEventsLatest (chainLogs : List AccountUpdatedEvent)
    (currentBlock fromBlock : Int) : List AccountUpdatedEvent :=
  chainLogs.filter (fun e =>
    decide (actualFromBlock currentBlock fromBlock ≤ e.blockNumber)
      && decide (e.blockNumber ≤ currentBlock))

/-- C10: with `toBlock = 'latest'` the effective from-block is the
maximum of the caller's `fromBlock` and `currentBlock − 10000`, so events
more than 10,000 blocks older than the current block are never
returned. -/
theorem c10_event_range (chainLogs : List AccountUpdatedEvent)
    (currentBlock fromBlock : Int) (h : 0 ≤ fromBlock) :
    actualFromBlock currentBlock fromBlock = max fromBlock (currentBlock - 10000)
    ∧ ∀ e ∈ chainLogs, e.blockNumber < currentBlock - 10000 →
        e ∉ getAccountUpdatedEventsLatest chainLogs currentBlock fromBlock := by
  have hmax : actualFromBlock currentBlock fromBlock
      = max fromBlock (currentBlock - 10000) := by
    simp only [actualFromBlock]
    rw [max_def]
    split
    · split <;> omega
    · split <;> omega
  refine ⟨hmax, ?_⟩
  intro e _ hold hmem
  have := List.mem_filter.mp hmem
  rcases this with ⟨-, hcond⟩
  simp only [Bool.and_eq_true, decide_eq_true_eq] at hcond
  have hge : currentBlock - 10000 ≤ actualFromBlock currentBlock fromBlock := by
    rw [hmax]
    exact le_max_right _ _
  omega

/-- Witness for C10 at a concrete chain state. -/
theorem c10_event_range_witness :
    actualFromBlock 20000 0 = max 0 (20000 - 10000)
    ∧ AccountUpdatedEvent.mk "0xc" 3
        ∉ getAccountUpdatedEventsLatest [AccountUpdatedEvent.mk "0xc" 3] 20000 0 :=
  ⟨(c10_event_range [AccountUpdatedEvent.mk "0xc" 3] 20000 0 (by decide)).1,
    (c10_event_range [AccountUpdatedEvent.mk "0xc" 3] 20000 0 (by decide)).2
      (AccountUpdatedEvent.mk "0xc" 3) (by simp) (by decide)⟩

/-! ### Lemmas about sums and greedy selection -/

theorem sumAmounts_foldl (l : List Note) :
    ∀ s : Int, l.foldl (fun a n => a + n.amount) s = s + sumAmounts l := by
  induction l with
  | nil => intro s; simp [sumAmounts]
  | cons n rest ih =>
    intro s
    simp only [List.foldl_cons, sumAmounts]
    rw [ih (s + n.amount)]
    have h0 := ih (0 + n.amount)
    simp only [sumAmounts] at h0 ⊢
    omega

theorem sumAmounts_cons (n : Note) (l : List Note) :
    sumAmounts (n :: l) = n.amount + sumAmounts l := by
  have h : sumAmounts (n :: l) = l.foldl (fun a m => a + m.amount) (0 + n.amount) := rfl
  rw [h, sumAmounts_foldl]
  omega

theorem sumAmounts_eq_map_sum (l : List Note) :
    sumAmounts l = (l.map fun n => n.amount).sum := by
  induction l with
  | nil => rfl
  | cons n rest ih => rw [sumAmounts_cons, List.map_cons, List.sum_cons, ih]

theorem sumAmounts_perm {l l' : List Note} (h : l.Perm l') :
    sumAmounts l = sumAmounts l' := by
  rw [sumAmounts_eq_map_sum, sumAmounts_eq_map_sum]
  exact (h.map _).sum_eq

theorem sumAmounts_nonneg {l : List Note} (h : ∀ n ∈ l, 0 ≤ n.amount) :
    0 ≤ sumAmounts l := by
  induction l with
  | nil => simp [sumAmounts]
  | cons n rest ih =>
    rw [sumAmounts_cons]
    have h1 := h n (by simp)
    have h2 := ih (fun m hm => h m (by simp [hm]))
    omega

theorem greedyAccumulate_total (target : Int) :
    ∀ (l : List Note) (total : Int),
      (greedyAccumulate target l total).2
        = total + sumAmounts (greedyAccumulate target l total).1
  | [], total => by simp [greedyAccumulate, sumAmounts]
  | n :: rest, total => by
    by_cases h : total ≥ target
    · simp [greedyAccumulate, h, sumAmounts]
    · have ih := greedyAccumulate_total target rest (total + n.amount)
      simp only [greedyAccumulate, h, if_false]
      rw [sumAmounts_cons]
      omega

theorem greedyAccumulate_exhaust (target : Int) :
    ∀ (l : List Note) (total : Int),
      (greedyAccumulate target l total).2 < target →
        (greedyAccumulate target l total).1 = l
        ∧ (greedyAccumulate target l total).2 = total + sumAmounts l
  | [], total => by
    intro hlt
    simp [greedyAccumulate, sumAmounts]
  | n :: rest, total => by
    intro hlt
    by_cases h : total ≥ target
    · simp only [greedyAccumulate, h, if_true] at hlt
      omega
    · simp only [greedyAccumulate, h, if_false] at hlt ⊢
      have ih := greedyAccumulate_exhaust target rest (total + n.amount) hlt
      rw [sumAmounts_cons]
      refine ⟨by rw [ih.1], by rw [ih.2]; omega⟩

theorem greedyAccumulate_mem (target : Int) :
    ∀ (l : List Note) (total : Int) (n : Note),
      n ∈ (greedyAccumulate target l total).1 → n ∈ l
  | [], total => by intro n hn; simp [greedyAccumulate] at hn
  | m :: rest, total => by
    intro n hn
    by_cases h : total ≥ target
    · simp [greedyAccumulate, h] at hn
    · simp only [greedyAccumulate, h, if_false, List.mem_cons] at hn
      rcases hn with hn | hn
      · simp [hn]
      · exact List.mem_cons_of_mem _ (greedyAccumulate_mem target rest (total + m.amount) n hn)

theorem greedyAccumulate_le (target : Int) :
    ∀ (l : List Note) (total : Int), (∀ n ∈ l, 0 ≤ n.amount) →
      (greedyAccumulate target l total).2 ≤ total + sumAmounts l
  | [], total => by intro h; simp [greedyAccumulate, sumAmounts]
  | n :: rest, total => by
    intro h
    by_cases hge : total ≥ target
    · simp only [greedyAccumulate, hge, if_true]
      have := sumAmounts_nonneg h
      omega
    · simp only [greedyAccumulate, hge, if_false]
      have ih := greedyAccumulate_le target rest (total + n.amount)
        (fun m hm => h m (by simp [hm]))
      rw [sumAmounts_cons]
      omega

theorem sortByAmountDesc_perm (l : List Note) : (sortByAmountDesc l).Perm l :=
  List.mergeSort_perm l _

theorem select_total_eq_balance_of_lt {notes : List Note} {token : String}
    {target : Int} (h : (selectNotesForAmount notes token target).2 < target) :
    (selectNotesForAmount notes token target).2 = tokenBalance notes token := by
  have hex := greedyAccumulate_exhaust target
    (sortByAmountDesc (getNotesForToken notes token)) 0 h
  have hperm := sumAmounts_perm (sortByAmountDesc_perm (getNotesForToken notes token))
  have : (selectNotesForAmount notes token target).2
      = 0 + sumAmounts (sortByAmountDesc (getNotesForToken notes token)) := hex.2
  rw [this, hperm]
  simp [tokenBalance]

theorem select_mem {notes : List Note} {token : String} {target : Int} {n : Note}
    (h : n ∈ (selectNotesForAmount notes token target).1) :
    n ∈ getNotesForToken notes token := by
  have h1 := greedyAccumulate_mem target
    (sortByAmountDesc (getNotesForToken notes token)) 0 n h
  exact ((sortByAmountDesc_perm (getNotesForToken notes token)).mem_iff).mp h1

theorem select_total_le {notes : List Note} {token : String} {target : Int}
    (h : ∀ n ∈ notes, 0 ≤ n.amount) :
    (selectNotesForAmount notes token target).2 ≤ tokenBalance notes token := by
  have hmem : ∀ n ∈ sortByAmountDesc (getNotesForToken notes token), 0 ≤ n.amount := by
    intro n hn
    have := ((sortByAmountDesc_perm (getNotesForToken notes token)).mem_iff).mp hn
    exact h n (List.mem_filter.mp this).1
  have hle := greedyAccumulate_le target
    (sortByAmountDesc (getNotesForToken notes token)) 0 hmem
  have hperm := sumAmounts_perm (sortByAmountDesc_perm (getNotesForToken notes token))
  have hdef : selectNotesForAmount notes token target
      = greedyAccumulate target (sortByAmountDesc (getNotesForToken notes token)) 0 := rfl
  simp only [tokenBalance, hdef]
  omega

/-- C1: `selectNotesForAmount` never returns a total below the target
unless the wallet's unspent balance for the token is itself below the
target; the selected notes are unspent notes of that token and their
amounts sum to the returned total. -/
theorem c1_select_notes (notes : List Note) (token : String) (target : Int) :
    ((selectNotesForAmount notes token target).2 < target →
      tokenBalance notes token < target)
    ∧ (∀ n ∈ (selectNotesForAmount notes token target).1,
        n.spent = false ∧ n.token.toLower = token.toLower ∧ n ∈ notes)
    ∧ sumAmounts (selectNotesForAmount notes token target).1
        = (selectNotesForAmount notes token target).2 := by
  refine ⟨?_, ?_, ?_⟩
  · intro h
    rw [← select_total_eq_balance_of_lt h]
    exact h
  · intro n hn
    have hmem := select_mem hn
    rcases List.mem_filter.mp hmem with ⟨hin, hprop⟩
    simp only [Bool.and_eq_true, Bool.not_eq_eq_eq_not, Bool.not_true, beq_iff_eq] at hprop
    exact ⟨by simpa using hprop.1, hprop.2, hin⟩
  · have := greedyAccumulate_total target
      (sortByAmountDesc (getNotesForToken notes token)) 0
    simp only [selectNotesForAmount]
    omega

/-- Witness for C1 on a concrete two-note wallet. -/
theorem c1_select_notes_witness :
    sumAmounts (selectNotesForAmount
        [Note.mk "0xc1" 10 "0xb1" "0xt" 0 "0xn1" false 1,
         Note.mk "0xc2" 7 "0xb2" "0xt" 1 "0xn2" false 1] "0xT" 12).1
      = (selectNotesForAmount
        [Note.mk "0xc1" 10 "0xb1" "0xt" 0 "0xn1" false 1,
         Note.mk "0xc2" 7 "0xb2" "0xt" 1 "0xn2" false 1] "0xT" 12).2 :=
  (c1_select_notes
    [Note.mk "0xc1" 10 "0xb1" "0xt" 0 "0xn1" false 1,
     Note.mk "0xc2" 7 "0xb2" "0xt" 1 "0xn2" false 1] "0xT" 12).2.2

/-! ### Branch characterization of `executeTransaction` -/

/-- Branch characterization: `executeTransaction` unfolded along its control flow.  The prover
request itself does not influence the result (it is only forwarded to the
collaborator, whose response is given). -/
theorem executeTransaction_eq (st : PrivacyWalletState) (token : String)
    (outputs : List TxOutput) (changeAddress : StealthAddress)
    (collab : TransferCollab) :
    executeTransaction st token outputs changeAddress collab =
      if (selectNotesForAmount st.notes token (sumOutputs outputs)).2 < sumOutputs outputs then
        (Except.error TxError.insufficientBalance, st)
      else if (selectNotesForAmount st.notes token (sumOutputs outputs)).2
          - sumOutputs outputs > 0 ∧ st.keys = none then
        (Except.error TxError.walletKeysNotFound, st)
      else if collab.proofResponse.success = false then
        (Except.error (TxError.proofFailed
          (collab.proofResponse.error.getD "Failed to generate transaction proof")), st)
      else
        match collab.transactTx with
        | Except.error _ => (Except.error TxError.thrown, st)
        | Except.ok txHash =>
          match collab.waitResult with
          | Except.error _ => (Except.error TxError.thrown, st)
          | Except.ok result =>
            if result.success = false then (Except.error TxError.transactionFailed, st)
            else
              (Except.ok txHash,
                markNotesSpentOp st
                  ((selectNotesForAmount st.notes token (sumOutputs outputs)).1.map
                    (fun n => n.nullifier))) := by
  by_cases h1 : (selectNotesForAmount st.notes token (sumOutputs outputs)).2
      < sumOutputs outputs
  · simp [executeTransaction, h1]
  · by_cases h2 : (selectNotesForAmount st.notes token (sumOutputs outputs)).2
        - sumOutputs outputs > 0
    · rcases hk : st.keys with _ | k
      · simp [executeTransaction, h1, h2, hk, markNotesSpentOp]
      · simp [executeTransaction, h1, h2, hk, markNotesSpentOp]
    · simp [executeTransaction, h1, h2, markNotesSpentOp]

/-- C2: `executeTransaction` fails with the insufficient-balance error,
leaving the wallet state unchanged, exactly when the wallet's unspent
total for the token (sum of unspent note amounts matching the token) is
less than the sum of the requested output amounts.  Note amounts are
nonnegative (hypothesis `h`: token amounts are never negative). -/
theorem c2_insufficient_balance (st : PrivacyWalletState) (token : String)
    (outputs : List TxOutput) (changeAddress : StealthAddress)
    (collab : TransferCollab) (h : ∀ n ∈ st.notes, 0 ≤ n.amount) :
    ((executeTransaction st token outputs changeAddress collab).1
        = Except.error TxError.insufficientBalance
      ↔ tokenBalance st.notes token < sumOutputs outputs)
    ∧ (tokenBalance st.notes token < sumOutputs outputs →
        (executeTransaction st token outputs changeAddress collab).2 = st) := by
  have hsel : (selectNotesForAmount st.notes token (sumOutputs outputs)).2
        < sumOutputs outputs
      ↔ tokenBalance st.notes token < sumOutputs outputs := by
    constructor
    · intro hl
      rw [← select_total_eq_balance_of_lt hl]
      exact hl
    · intro hb
      exact lt_of_le_of_lt (select_total_le h) hb
  rw [executeTransaction_eq]
  by_cases h1 : (selectNotesForAmount st.notes token (sumOutputs outputs)).2
      < sumOutputs outputs
  · rw [if_pos h1]
    exact ⟨⟨fun _ => hsel.mp h1, fun _ => rfl⟩, fun _ => rfl⟩
  · have hnb : ¬ tokenBalance st.notes token < sumOutputs outputs :=
      fun hb => h1 (hsel.mpr hb)
    simp only [if_neg h1]
    constructor
    · constructor
      · intro herr
        exfalso
        revert herr
        split
        · simp
        · split
          · simp
          · split
            · simp
            · split
              · simp
              · split
                · simp
                · simp
      · intro hb
        exact absurd hb hnb
    · intro hb
      exact absurd hb hnb

/-- Witness for C2 on a concrete wallet: one unspent note of amount 5 and
a requested transfer of 9 yields the insufficient-balance error. -/
theorem c2_insufficient_balance_witness :
    (executeTransaction
        (PrivacyWalletState.mk none [Note.mk "0xc1" 5 "0xb1" "0xt" 0 "0xn1" false 1] [] 0)
        "0xt" [TxOutput.mk 9 (StealthAddress.mk "0xs" "0xe" 0)]
        (StealthAddress.mk "0xs2" "0xe2" 0)
        (TransferCollab.mk (ProofResponse.mk "0x" "0x" true none)
          (Except.ok "0xtx") (Except.ok (TxResult.mk true 2)))).1
      = Except.error TxError.insufficientBalance :=
  ((c2_insufficient_balance
      (PrivacyWalletState.mk none [Note.mk "0xc1" 5 "0xb1" "0xt" 0 "0xn1" false 1] [] 0)
      "0xt" [TxOutput.mk 9 (StealthAddress.mk "0xs" "0xe" 0)]
      (StealthAddress.mk "0xs2" "0xe2" 0)
      (TransferCollab.mk (ProofResponse.mk "0x" "0x" true none)
        (Except.ok "0xtx") (Except.ok (TxResult.mk true 2)))
      (by intro n hn; simp at hn; rw [hn]; decide)).1).mpr
    (by simp [tokenBalance, getNotesForToken, sumAmounts, sumOutputs, List.filter])

/-- C3: if the prover returns a non-success proof response,
`executeTransaction` aborts with an error and the wallet state is
entirely unchanged (no note spent, no leaf inserted, no note appended,
watermark untouched); moreover any state change at all requires the
chain submission to have succeeded and been confirmed. -/
theorem c3_proof_failure_aborts (st : PrivacyWalletState) (token : String)
    (outputs : List TxOutput) (changeAddress : StealthAddress)
    (collab : TransferCollab) :
    (collab.proofResponse.success = false →
      (executeTransaction st token outputs changeAddress collab).2 = st
      ∧ ∃ e, (executeTransaction st token outputs changeAddress collab).1
          = Except.error e)
    ∧ ((executeTransaction st token outputs changeAddress collab).2 ≠ st →
        ∃ blockNumber txHash, collab.transactTx = Except.ok txHash
          ∧ collab.waitResult = Except.ok (TxResult.mk true blockNumber)) := by
  rw [executeTransaction_eq]
  constructor
  · intro hfail
    by_cases h1 : (selectNotesForAmount st.notes token (sumOutputs outputs)).2
        < sumOutputs outputs
    · rw [if_pos h1]
      exact ⟨rfl, TxError.insufficientBalance, rfl⟩
    · rw [if_neg h1]
      by_cases h2 : (selectNotesForAmount st.notes token (sumOutputs outputs)).2
          - sumOutputs outputs > 0 ∧ st.keys = none
      · rw [if_pos h2]
        exact ⟨rfl, TxError.walletKeysNotFound, rfl⟩
      · rw [if_neg h2, if_pos hfail]
        exact ⟨rfl, TxError.proofFailed
          (collab.proofResponse.error.getD "Failed to generate transaction proof"), rfl⟩
  · by_cases h1 : (selectNotesForAmount st.notes token (sumOutputs outputs)).2
        < sumOutputs outputs
    · rw [if_pos h1]
      intro hc
      exact absurd rfl hc
    · rw [if_neg h1]
      by_cases h2 : (selectNotesForAmount st.notes token (sumOutputs outputs)).2
          - sumOutputs outputs > 0 ∧ st.keys = none
      · rw [if_pos h2]
        intro hc
        exact absurd rfl hc
      · rw [if_neg h2]
        by_cases h3 : collab.proofResponse.success = false
        · rw [if_pos h3]
          intro hc
          exact absurd rfl hc
        · rw [if_neg h3]
          rcases htx : collab.transactTx with u | txHash
          · intro hc
            exact absurd rfl hc
          · rcases hw : collab.waitResult with u | res
            · intro hc
              exact absurd rfl hc
            · dsimp only
              by_cases hs : res.success = false
              · rw [if_pos hs]
                intro hc
                exact absurd rfl hc
              · rw [if_neg hs]
                intro hc
                rcases res with ⟨s, b⟩
                cases s
                · exact absurd rfl hs
                · exact ⟨b, txHash, rfl, rfl⟩

/-- Witness for C3: a failing proof response leaves a concrete wallet
state unchanged. -/
theorem c3_proof_failure_aborts_witness :
    (executeTransaction
        (PrivacyWalletState.mk none [Note.mk "0xc1" 5 "0xb1" "0xt" 0 "0xn1" false 1] ["0xc1"] 7)
        "0xt" [TxOutput.mk 5 (StealthAddress.mk "0xs" "0xe" 0)]
        (StealthAddress.mk "0xs2" "0xe2" 0)
        (TransferCollab.mk (ProofResponse.mk "0x" "0x" false (some "prover down"))
          (Except.ok "0xtx") (Except.ok (TxResult.mk true 2)))).2
      = PrivacyWalletState.mk none [Note.mk "0xc1" 5 "0xb1" "0xt" 0 "0xn1" false 1] ["0xc1"] 7 :=
  ((c3_proof_failure_aborts
      (PrivacyWalletState.mk none [Note.mk "0xc1" 5 "0xb1" "0xt" 0 "0xn1" false 1] ["0xc1"] 7)
      "0xt" [TxOutput.mk 5 (StealthAddress.mk "0xs" "0xe" 0)]
      (StealthAddress.mk "0xs2" "0xe2" 0)
      (TransferCollab.mk (ProofResponse.mk "0x" "0x" false (some "prover down"))
        (Except.ok "0xtx") (Except.ok (TxResult.mk true 2)))).1 rfl).1

/-! ### Note evolution: spent-flag monotonicity and no deletion -/

/-- Relation `NoteLe a b`: `b` is `a` with every field unchanged except possibly
the spent flag, which may only go from false to true. -/
def NoteLe (a b : Note) : Prop :=
  b.commitment = a.commitment ∧ b.amount = a.amount ∧ b.blinding = a.blinding
    ∧ b.token = a.token ∧ b.leafIndex = a.leafIndex ∧ b.nullifier = a.nullifier
    ∧ b.blockNumber = a.blockNumber ∧ (a.spent = true → b.spent = true)

theorem noteLe_refl (a : Note) : NoteLe a a :=
  ⟨rfl, rfl, rfl, rfl, rfl, rfl, rfl, fun h => h⟩

theorem noteLe_trans {a b c : Note} (h1 : NoteLe a b) (h2 : NoteLe b c) : NoteLe a c := by
  obtain ⟨e1, e2, e3, e4, e5, e6, e7, hs⟩ := h1
  obtain ⟨f1, f2, f3, f4, f5, f6, f7, hs2⟩ := h2
  exact ⟨f1.trans e1, f2.trans e2, f3.trans e3, f4.trans e4, f5.trans e5,
    f6.trans e6, f7.trans e7, fun h => hs2 (hs h)⟩

theorem noteLe_set_spent (a : Note) : NoteLe a { a with spent := true } :=
  ⟨rfl, rfl, rfl, rfl, rfl, rfl, rfl, fun _ => rfl⟩

/-- Relation `NotesEvolve old new`: no note deleted (the old list's positions all
survive in place) and each surviving note is only changed by a
false→true spent flip. -/
def NotesEvolve (old new : List Note) : Prop :=
  old.length ≤ new.length
    ∧ ∀ i, i < old.length → NoteLe (old.getD i default) (new.getD i default)

theorem notesEvolve_refl (l : List Note) : NotesEvolve l l :=
  ⟨le_refl _, fun _ _ => noteLe_refl _⟩

theorem notesEvolve_trans {a b c : List Note} (h1 : NotesEvolve a b)
    (h2 : NotesEvolve b c) : NotesEvolve a c :=
  ⟨le_trans h1.1 h2.1, fun i hi =>
    noteLe_trans (h1.2 i hi) (h2.2 i (lt_of_lt_of_le hi h1.1))⟩

theorem notesEvolve_append (l t : List Note) : NotesEvolve l (l ++ t) := by
  refine ⟨by simp, fun i hi => ?_⟩
  rw [List.getD_append l t default i hi]
  exact noteLe_refl _

theorem markFirst_length : ∀ (ns : List Note) (nf : String),
    (markFirst ns nf).length = ns.length
  | [], _ => rfl
  | n :: rest, nf => by
    simp only [markFirst]
    split
    · rfl
    · simp [markFirst_length rest nf]

theorem markFirst_evolve : ∀ (ns : List Note) (nf : String),
    NotesEvolve ns (markFirst ns nf)
  | [], _ => notesEvolve_refl []
  | n :: rest, nf => by
    simp only [markFirst]
    split
    · refine ⟨by simp, fun i hi => ?_⟩
      cases i with
      | zero =>
        rw [List.getD_cons_zero, List.getD_cons_zero]
        exact noteLe_set_spent n
      | succ j =>
        rw [List.getD_cons_succ, List.getD_cons_succ]
        exact noteLe_refl _
    · refine ⟨by simp [markFirst_length], fun i hi => ?_⟩
      cases i with
      | zero =>
        rw [List.getD_cons_zero, List.getD_cons_zero]
        exact noteLe_refl n
      | succ j =>
        rw [List.getD_cons_succ, List.getD_cons_succ]
        exact (markFirst_evolve rest nf).2 j (by simpa using hi)

/-- Unfolding `markNotesSpent` one nullifier at a time. -/
theorem markNotesSpent_cons (a : String) (nfs : List String) (ns : List Note) :
    markNotesSpent (a :: nfs) ns = markNotesSpent nfs (markFirst ns a) := rfl

theorem markNotesSpent_evolve : ∀ (nfs : List String) (ns : List Note),
    NotesEvolve ns (markNotesSpent nfs ns)
  | [], ns => notesEvolve_refl ns
  | nf :: nfs, ns => by
    rw [markNotesSpent_cons]
    exact notesEvolve_trans (markFirst_evolve ns nf)
      (markNotesSpent_evolve nfs (markFirst ns nf))

theorem checkSpentLoop_length (query : String → Except Unit Bool) :
    ∀ ns : List Note, (checkSpentLoop query ns).1.length = ns.length
  | [] => rfl
  | n :: rest => by
    simp only [checkSpentLoop]
    split
    · simp [checkSpentLoop_length query rest]
    · split
      · rfl
      · simp [checkSpentLoop_length query rest]

theorem checkSpentLoop_evolve (query : String → Except Unit Bool) :
    ∀ ns : List Note, NotesEvolve ns (checkSpentLoop query ns).1
  | [] => notesEvolve_refl []
  | n :: rest => by
    simp only [checkSpentLoop]
    split
    · refine ⟨by simp [checkSpentLoop_length], fun i hi => ?_⟩
      cases i with
      | zero =>
        rw [List.getD_cons_zero, List.getD_cons_zero]
        exact noteLe_refl n
      | succ j =>
        rw [List.getD_cons_succ, List.getD_cons_succ]
        exact (checkSpentLoop_evolve query rest).2 j (by simpa using hi)
    · split
      · exact notesEvolve_refl _
      · refine ⟨by simp [checkSpentLoop_length], fun i hi => ?_⟩
        cases i with
        | zero =>
          rw [List.getD_cons_zero, List.getD_cons_zero]
          split
          · exact noteLe_set_spent n
          · exact noteLe_refl n
        | succ j =>
          rw [List.getD_cons_succ, List.getD_cons_succ]
          exact (checkSpentLoop_evolve query rest).2 j (by simpa using hi)

/-- The event-insertion fold of `syncWithChain` only appends leaves. -/
theorem leaves_foldl_extends : ∀ (events : List AccountUpdatedEvent) (leaves : List String),
    List.IsPrefix leaves (events.foldl (fun ls e =>
      if findLeafIndex ls e.commitment = -1 then insertLeaf ls e.commitment else ls) leaves)
  | [], leaves => List.prefix_refl leaves
  | e :: events, leaves => by
    simp only [List.foldl_cons]
    have h1 : List.IsPrefix leaves
        (if findLeafIndex leaves e.commitment = -1 then insertLeaf leaves e.commitment
         else leaves) := by
      split
      · exact List.prefix_append leaves [e.commitment]
      · exact List.prefix_refl leaves
    exact h1.trans (leaves_foldl_extends events _)

/-- Helper: `syncWithChain` only flips spent flags and never deletes notes, for
every collaborator behaviour (including throws anywhere). -/
theorem syncWithChain_notes_evolve (st : PrivacyWalletState) (collab : SyncCollab) :
    NotesEvolve st.notes (syncWithChain st collab).notes := by
  simp only [syncWithChain, syncBody]
  split
  · exact notesEvolve_refl _
  · split
    · exact notesEvolve_refl _
    · exact checkSpentLoop_evolve collab.nullifierUsed st.notes

/-- Helper: `syncWithChain` only appends Merkle leaves, for every collaborator
behaviour. -/
theorem syncWithChain_leaves_extends (st : PrivacyWalletState) (collab : SyncCollab) :
    List.IsPrefix st.merkleLeaves (syncWithChain st collab).merkleLeaves := by
  simp only [syncWithChain, syncBody]
  split
  · exact List.prefix_refl _
  · split
    · exact List.prefix_refl _
    · exact leaves_foldl_extends _ st.merkleLeaves

/-- C4: `syncWithChain` never propagates a collaborator error (the catch
swallows it, so the function returns the body's state unconditionally —
first conjunct), and an error anywhere leaves only legal, already-applied
mutations: notes are only flipped false→true and never deleted, and
Merkle leaves are only appended, so the sync is safely retried on the
next call from the returned state. -/
theorem c4_sync_error_resilient (st : PrivacyWalletState) (collab : SyncCollab) :
    syncWithChain st collab = (syncBody st collab).1
    ∧ NotesEvolve st.notes (syncWithChain st collab).notes
    ∧ List.IsPrefix st.merkleLeaves (syncWithChain st collab).merkleLeaves :=
  ⟨rfl, syncWithChain_notes_evolve st collab, syncWithChain_leaves_extends st collab⟩

/-- C6: across deposit, withdraw, transfer, `markNotesSpent` and sync,
each note is mutated only by flipping its spent flag from false to true
(never back), all other fields are unchanged, and no note is ever deleted
from the notes list. -/
theorem c6_notes_flip_only (st : PrivacyWalletState) (token : String)
    (commitment : Commitment) (dcollab : DepositCollab)
    (wnotes : List Note) (wcollab : WithdrawCollab)
    (outputs : List TxOutput) (changeAddress : StealthAddress)
    (tcollab : TransferCollab) (nullifiers : List String) (scollab : SyncCollab) :
    NotesEvolve st.notes (executeDeposit st token commitment dcollab).2.notes
    ∧ NotesEvolve st.notes (executeWithdraw st wnotes wcollab).2.notes
    ∧ NotesEvolve st.notes
        (executeTransaction st token outputs changeAddress tcollab).2.notes
    ∧ NotesEvolve st.notes (markNotesSpentOp st nullifiers).notes
    ∧ NotesEvolve st.notes (syncWithChain st scollab).notes := by
  refine ⟨?_, ?_, ?_, ?_, ?_⟩
  · simp only [executeDeposit]
    split
    · exact notesEvolve_refl _
    · split
      · exact notesEvolve_refl _
      · split
        · exact notesEvolve_refl _
        · split
          · exact notesEvolve_refl _
          · exact notesEvolve_append st.notes _
  · simp only [executeWithdraw]
    split
    · exact notesEvolve_refl _
    · split
      · exact notesEvolve_refl _
      · split
        · exact notesEvolve_refl _
        · exact markNotesSpent_evolve _ st.notes
  · rw [executeTransaction_eq]
    split
    · exact notesEvolve_refl _
    · split
      · exact notesEvolve_refl _
      · split
        · exact notesEvolve_refl _
        · split
          · exact notesEvolve_refl _
          · split
            · exact notesEvolve_refl _
            · split
              · exact notesEvolve_refl _
              · exact markNotesSpent_evolve _ st.notes
  · exact markNotesSpent_evolve nullifiers st.notes
  · exact syncWithChain_notes_evolve st scollab

/-- C7 (counterexample): `syncWithChain` assigns
`lastSyncedBlock := lastEvent.blockNumber + 1` unconditionally, so a
collaborator response whose last event carries a block number below the
current watermark decreases `lastSyncedBlock`: with watermark 100 and a
returned event at block 0, the watermark drops to 1.  The claim's "for
every sequence of collaborator responses" therefore fails. -/
theorem c7_watermark_counterexample :
    (syncWithChain (PrivacyWalletState.mk none [] [] 100)
        (SyncCollab.mk (Except.ok [AccountUpdatedEvent.mk "0xc1" 0])
          (fun _ => Except.ok false))).lastSyncedBlock
      < (PrivacyWalletState.mk none [] [] 100).lastSyncedBlock := by
  decide

/-- C7 (amended): no wallet operation other than sync touches
`lastSyncedBlock`; `syncWithChain` leaves it unchanged when the event
fetch fails or returns no events, sets it to one past the last returned
event's block number when events are returned (outside the empty-wallet
short-circuit), and is non-decreasing provided every returned event's
block number is at least the current watermark — which the chain
collaborator guarantees, being queried from that watermark. -/
theorem c7_watermark_amended (st : PrivacyWalletState) (token : String)
    (commitment : Commitment) (dcollab : DepositCollab)
    (wnotes : List Note) (wcollab : WithdrawCollab)
    (outputs : List TxOutput) (changeAddress : StealthAddress)
    (tcollab : TransferCollab) (nullifiers : List String) (scollab : SyncCollab) :
    (executeDeposit st token commitment dcollab).2.lastSyncedBlock = st.lastSyncedBlock
    ∧ (executeWithdraw st wnotes wcollab).2.lastSyncedBlock = st.lastSyncedBlock
    ∧ (executeTransaction st token outputs changeAddress tcollab).2.lastSyncedBlock
        = st.lastSyncedBlock
    ∧ (markNotesSpentOp st nullifiers).lastSyncedBlock = st.lastSyncedBlock
    ∧ (∀ u, scollab.events = Except.error u →
        (syncWithChain st scollab).lastSyncedBlock = st.lastSyncedBlock)
    ∧ (scollab.events = Except.ok [] →
        (syncWithChain st scollab).lastSyncedBlock = st.lastSyncedBlock)
    ∧ (∀ events, scollab.events = Except.ok events →
        (∀ e ∈ events, st.lastSyncedBlock ≤ e.blockNumber) →
        st.lastSyncedBlock ≤ (syncWithChain st scollab).lastSyncedBlock)
    ∧ (∀ events (h : events ≠ []), scollab.events = Except.ok events →
        ¬(st.notes = [] ∧ st.lastSyncedBlock = 0) →
        (syncWithChain st scollab).lastSyncedBlock
          = (events.getLast h).blockNumber + 1) := by
  refine ⟨?_, ?_, ?_, rfl, ?_, ?_, ?_, ?_⟩
  · simp only [executeDeposit]
    split
    · rfl
    · split
      · rfl
      · split
        · rfl
        · split
          · rfl
          · rfl
  · simp only [executeWithdraw]
    split
    · rfl
    · split
      · rfl
      · split
        · rfl
        · rfl
  · rw [executeTransaction_eq]
    split
    · rfl
    · split
      · rfl
      · split
        · rfl
        · split
          · rfl
          · split
            · rfl
            · split
              · rfl
              · rfl
  · intro u hu
    simp only [syncWithChain, syncBody]
    split
    · rfl
    · rw [hu]
  · intro hev
    simp only [syncWithChain, syncBody]
    split
    · rfl
    · rw [hev]
      rfl
  · intro events hev hall
    simp only [syncWithChain, syncBody]
    split
    · exact le_refl _
    · rw [hev]
      dsimp only
      cases hl : events.getLast? with
      | none => exact le_refl _
      | some e =>
        show st.lastSyncedBlock ≤ e.blockNumber + 1
        have hmem : e ∈ events := List.mem_of_getLast?_eq_some hl
        have := hall e hmem
        omega
  · intro events h hev hss
    simp only [syncWithChain, syncBody]
    rw [if_neg hss, hev]
    dsimp only
    rw [List.getLast?_eq_getLast events h]

/-- Witness for C7 (amended) at a concrete state and collaborator. -/
theorem c7_watermark_amended_witness :
    (5 : Int) ≤ (syncWithChain (PrivacyWalletState.mk none [] [] 5)
        (SyncCollab.mk (Except.ok [AccountUpdatedEvent.mk "0xa" 7])
          (fun _ => Except.ok false))).lastSyncedBlock :=
  (c7_watermark_amended (PrivacyWalletState.mk none [] [] 5) "0xt"
      (Commitment.mk "0xc" 1 "0xb") (DepositCollab.mk (Except.error ()) (Except.error ()))
      [] (WithdrawCollab.mk (Except.error ()) (Except.error ()))
      [] (StealthAddress.mk "0xs" "0xe" 0)
      (TransferCollab.mk (ProofResponse.mk "0x" "0x" false none)
        (Except.error ()) (Except.error ()))
      []
      (SyncCollab.mk (Except.ok [AccountUpdatedEvent.mk "0xa" 7])
        (fun _ => Except.ok false))).2.2.2.2.2.2.1
    [AccountUpdatedEvent.mk "0xa" 7] rfl
    (by
      intro e he
      simp at he
      rw [he]
      decide)

/-! ### Idempotence of `markNotesSpent` -/

theorem markFirst_comm : ∀ (ns : List Note) (a b : String),
    markFirst (markFirst ns a) b = markFirst (markFirst ns b) a
  | [], _, _ => rfl
  | n :: rest, a, b => by
    by_cases ha : n.nullifier.toLower = a.toLower
    · by_cases hb : n.nullifier.toLower = b.toLower
      · simp only [markFirst]
        rw [if_pos ha, if_pos hb]
        simp only [markFirst]
        rw [if_pos ha, if_pos hb]
      · simp only [markFirst]
        rw [if_pos ha, if_neg hb]
        simp only [markFirst]
        rw [if_pos ha, if_neg hb]
    · by_cases hb : n.nullifier.toLower = b.toLower
      · simp only [markFirst]
        rw [if_neg ha, if_pos hb]
        simp only [markFirst]
        rw [if_neg ha, if_pos hb]
      · simp only [markFirst]
        rw [if_neg ha, if_neg hb]
        simp only [markFirst]
        rw [if_neg ha, if_neg hb, markFirst_comm rest a b]

theorem markFirst_idem : ∀ (ns : List Note) (a : String),
    markFirst (markFirst ns a) a = markFirst ns a
  | [], _ => rfl
  | n :: rest, a => by
    by_cases ha : n.nullifier.toLower = a.toLower
    · simp only [markFirst]
      rw [if_pos ha]
      simp only [markFirst]
      rw [if_pos ha]
    · simp only [markFirst]
      rw [if_neg ha]
      simp only [markFirst]
      rw [if_neg ha, markFirst_idem rest a]

theorem markFirst_markNotesSpent_comm : ∀ (nfs : List String) (ns : List Note) (a : String),
    markFirst (markNotesSpent nfs ns) a = markNotesSpent nfs (markFirst ns a)
  | [], _, _ => rfl
  | b :: nfs, ns, a => by
    rw [markNotesSpent_cons, markNotesSpent_cons,
      markFirst_markNotesSpent_comm nfs (markFirst ns b) a, markFirst_comm ns b a]

theorem markNotesSpent_idem : ∀ (nfs : List String) (ns : List Note),
    markNotesSpent nfs (markNotesSpent nfs ns) = markNotesSpent nfs ns
  | [], _ => rfl
  | a :: nfs, ns => by
    rw [markNotesSpent_cons, markNotesSpent_cons,
      markFirst_markNotesSpent_comm nfs (markFirst ns a) a,
      markFirst_idem ns a, markNotesSpent_idem nfs (markFirst ns a)]

theorem markFirst_congr : ∀ (ns : List Note) (a b : String),
    a.toLower = b.toLower → markFirst ns a = markFirst ns b
  | [], _, _, _ => rfl
  | n :: rest, a, b, h => by
    simp only [markFirst, h, markFirst_congr rest a b h]

theorem markNotesSpent_congr : ∀ (nfs nfs' : List String) (ns : List Note),
    nfs.map String.toLower = nfs'.map String.toLower →
    markNotesSpent nfs ns = markNotesSpent nfs' ns
  | [], nfs', ns, h => by
    cases nfs' with
    | nil => rfl
    | cons b nfs2 => simp at h
  | a :: nfs, nfs', ns, h => by
    cases nfs' with
    | nil => simp at h
    | cons b nfs2 =>
      simp only [List.map_cons, List.cons.injEq] at h
      rw [markNotesSpent_cons, markNotesSpent_cons, markFirst_congr ns a b h.1,
        markNotesSpent_congr nfs nfs2 (markFirst ns b) h.2]

theorem markFirst_noop : ∀ (ns : List Note) (nf : String),
    (∀ n ∈ ns, n.nullifier.toLower = nf.toLower → n.spent = true) →
    markFirst ns nf = ns
  | [], _, _ => rfl
  | n :: rest, nf, h => by
    by_cases hm : n.nullifier.toLower = nf.toLower
    · simp only [markFirst]
      rw [if_pos hm]
      have hs : n.spent = true := h n (by simp) hm
      have he : ({ n with spent := true } : Note) = n := by
        rcases n with ⟨c, am, bl, t, l, nf2, s, bn⟩
        have hs' : s = true := hs
        rw [hs']
      rw [he]
    · simp only [markFirst]
      rw [if_neg hm, markFirst_noop rest nf (fun m hm2 hm3 => h m (by simp [hm2]) hm3)]

theorem markNotesSpent_noop : ∀ (nfs : List String) (ns : List Note),
    (∀ n ∈ ns, n.spent = true) → markNotesSpent nfs ns = ns
  | [], _, _ => rfl
  | a :: nfs, ns, h => by
    rw [markNotesSpent_cons, markFirst_noop ns a (fun n hn _ => h n hn),
      markNotesSpent_noop nfs ns h]

/-- C5: `markNotesSpent` is idempotent — applying it twice with the same
nullifier list leaves the note list identical to applying it once; the
match against stored notes depends only on the lowercased nullifier hex
strings (case-insensitive matching); and re-marking already-spent notes
is a no-op. -/
theorem c5_mark_notes_spent (nullifiers : List String) (notes : List Note) :
    markNotesSpent nullifiers (markNotesSpent nullifiers notes)
      = markNotesSpent nullifiers notes
    ∧ (∀ nullifiers' : List String,
        nullifiers.map String.toLower = nullifiers'.map String.toLower →
        markNotesSpent nullifiers notes = markNotesSpent nullifiers' notes)
    ∧ ((∀ n ∈ notes, n.spent = true) → markNotesSpent nullifiers notes = notes) :=
  ⟨markNotesSpent_idem nullifiers notes,
    fun nullifiers' h => markNotesSpent_congr nullifiers nullifiers' notes h,
    fun h => markNotesSpent_noop nullifiers notes h⟩

/-- Witness for C5: re-marking a wallet whose only note is already spent
changes nothing. -/
theorem c5_mark_notes_spent_witness :
    markNotesSpent ["0xN1"] [Note.mk "0xc1" 5 "0xb1" "0xt" 0 "0xn1" true 1]
      = [Note.mk "0xc1" 5 "0xb1" "0xt" 0 "0xn1" true 1] :=
  (c5_mark_notes_spent ["0xN1"] [Note.mk "0xc1" 5 "0xb1" "0xt" 0 "0xn1" true 1]).2.2
    (by
      intro n hn
      simp at hn
      rw [hn])

end Gelap
